import Mathlib

/-!
Verification of the `verysimpletree` tree library (`src/verysimpletree/tree.py`).

The Python code mutates a heap of node objects in place; object identity (`is`,
and the default `==`, since `Tree` defines no `__eq__`) is what the code compares.
We therefore embed the program over an explicit heap: nodes are identified by
natural numbers, a `Store` maps each identifier to its `Node` record (the fields
`_parent`, `_children`, `_traversed`, `_iterated_leaves`, `_reversed_path_to_root`,
`_is_leaf` of `Tree.__init__`), and every mutating method becomes a function from
stores to stores.  Methods that walk parent links (`_reset_iterators`, `get_root`,
`get_distance`, `_raw_traverse`, `get_reversed_path_to_root`) recurse on the heap
graph and need not terminate on cyclic heaps, exactly as the Python would not; we
model them with a fuel parameter, `none` meaning the recursion did not finish
within the given fuel.  Raised Python exceptions are modelled by returning the
store at raise time together with the exception kind, so that "no mutation
happened before the raise" is a provable statement, not a modelling assumption.

The abstract validation hook `_check_child_to_be_added` is passed in as a boolean
predicate `check`; `check = false` stands for the hook raising (the `TestTree`
subclass in the source raises `TypeError`).
-/

set_option maxHeartbeats 1000000

namespace VST

/-- Python exception classes raised by the source code. -/
inductive PyErr where
  | typeError
  | valueError
  | indexError
  | childNotFoundError
  | attributeError
deriving DecidableEq

/-- The per-object state set up by `Tree.__init__`. -/
structure Node where
  parent : Option Nat
  children : List Nat
  traversed : Option (List Nat)
  iterated_leaves : Option (List Nat)
  reversed_path_to_root : Option (List Nat)
  is_leaf : Bool
deriving DecidableEq

/-- A freshly constructed node: no parent, no children, empty caches, `_is_leaf = True`. -/
def initNode : Node :=
  { parent := none, children := [], traversed := none, iterated_leaves := none,
    reversed_path_to_root := none, is_leaf := true }

/-- The heap: every identifier denotes a node object. -/
def Store := Nat → Node

/-- In-place field assignment on one object. -/
def update (s : Store) (i : Nat) (nd : Node) : Store :=
  fun j => if j = i then nd else s j

def setParent (s : Store) (i : Nat) (p : Option Nat) : Store :=
  update s i { s i with parent := p }

def setChildren (s : Store) (i : Nat) (c : List Nat) : Store :=
  update s i { s i with children := c }

def setTraversed (s : Store) (i : Nat) (v : Option (List Nat)) : Store :=
  update s i { s i with traversed := v }

def setIteratedLeaves (s : Store) (i : Nat) (v : Option (List Nat)) : Store :=
  update s i { s i with iterated_leaves := v }

def setReversedPath (s : Store) (i : Nat) (v : Option (List Nat)) : Store :=
  update s i { s i with reversed_path_to_root := v }

def setIsLeaf (s : Store) (i : Nat) (b : Bool) : Store :=
  update s i { s i with is_leaf := b }

/-- The three cache resets done by `_reset_iterators` on one node. -/
def clearNode (nd : Node) : Node :=
  { nd with traversed := none, iterated_leaves := none, reversed_path_to_root := none }

def clearCaches (s : Store) (i : Nat) : Store :=
  update s i (clearNode (s i))

/-- Method `Tree._reset_iterators`: first reset the parent (recursively, up to the root),
then clear this node's three caches.  Fuel bounds the parent-chain walk. -/
def reset_iterators : Nat → Store → Nat → Option Store
  | 0, _, _ => none
  | fuel + 1, s, i =>
    match (s i).parent with
    | none => some (clearCaches s i)
    | some p =>
      match reset_iterators fuel s p with
      | none => none
      | some s1 => some (clearCaches s1 i)

/-- Property `Tree.is_root`: true iff `get_parent()` is `None`. -/
def is_root (s : Store) (n : Nat) : Bool :=
  (s n).parent.isNone

/-- Property `Tree.is_last_child`: roots are last children; otherwise compare with
`self.up.get_children()[-1]` (object identity).  On an empty children list the
Python indexing would raise `IndexError`; that state is unreachable when parent
links are consistent, and is rendered as `false` here. -/
def is_last_child (s : Store) (n : Nat) : Bool :=
  match (s n).parent with
  | none => true
  | some p =>
    match (s p).children.getLast? with
    | some m => m == n
    | none => false

/-- Result of a mutating method: `none` if a parent-chain walk inside it ran out
of fuel, otherwise the heap after the call together with the raised exception,
if any (the heap is the one at raise time). -/
abbrev OpRes := Option (Store × Option PyErr)

/-- Method `Tree.add_child`: validate via the hook, set `child._parent = self`, append
to `self._children`, reset iterators from `self` upward, drop the `_is_leaf`
flag. -/
def add_child (check : Store → Nat → Nat → Bool) (fuel : Nat) (s : Store)
    (self child : Nat) : OpRes :=
  if check s self child then
    let s1 := setParent s child (some self)
    let s2 := setChildren s1 self ((s1 self).children ++ [child])
    match reset_iterators fuel s2 self with
    | none => none
    | some s3 =>
      some (if (s3 self).is_leaf then setIsLeaf s3 self false else s3, none)
  else
    some (s, some PyErr.typeError)

/-- Python `list.index` restricted to a present element (the absent case would
raise `ValueError`; all call sites in the source look up a present element). -/
def listIndex (a : Nat) : List Nat → Nat
  | [] => 0
  | x :: xs => if x = a then 0 else listIndex a xs + 1

/-- Python `list.remove`: delete the first occurrence. -/
def removeFirst (a : Nat) : List Nat → List Nat
  | [] => []
  | x :: xs => if x = a then xs else x :: removeFirst a xs

/-- Python `list.insert`, which clamps an index past the end. -/
def insertAt : Nat → Nat → List Nat → List Nat
  | 0, a, l => a :: l
  | _ + 1, a, [] => [a]
  | i + 1, a, x :: xs => x :: insertAt i a xs

/-- Method `Tree.remove`: raise `ChildNotFoundError` if `child` is not among the
children; otherwise clear `child._parent`, delete the first occurrence from the
children list, and reset iterators from `self` upward. -/
def remove (fuel : Nat) (s : Store) (self child : Nat) : OpRes :=
  if child ∈ (s self).children then
    let s1 := setParent s child none
    let s2 := setChildren s1 self (removeFirst child (s1 self).children)
    match reset_iterators fuel s2 self with
    | none => none
    | some s3 => some (s3, none)
  else
    some (s, some PyErr.childNotFoundError)

/-- The `old` argument of `replace_child`: a concrete node or a predicate
(`hasattr(old, '__call__')`). -/
inductive OldSel where
  | byNode (o : Nat)
  | byPred (f : Nat → Bool)

/-- The `list_of_olds` computation in `Tree.replace_child`. -/
def listOfOlds (s : Store) (self : Nat) (old : OldSel) : List Nat :=
  match old with
  | OldSel.byPred f => (s self).children.filter f
  | OldSel.byNode o => (s self).children.filter (fun ch => ch == o)

/-- Method `Tree.replace_child`: collect matches, raise `ValueError` if none, validate
`new` via the hook, index into the match list (`IndexError` past its end),
splice `new` into the matched child's position, clear the old child's parent,
reset iterators, and set `new._parent = self` (in this source order). -/
def replace_child (check : Store → Nat → Nat → Bool) (fuel : Nat) (s : Store)
    (self : Nat) (old : OldSel) (new : Nat) (index : Nat) : OpRes :=
  let olds := listOfOlds s self old
  if olds.isEmpty then
    some (s, some PyErr.valueError)
  else if check s self new then
    match olds.get? index with
    | none => some (s, some PyErr.indexError)
    | some matched =>
      let oldIndex := listIndex matched (s self).children
      let s1 := setChildren s self
        (insertAt oldIndex new (removeFirst matched (s self).children))
      let s2 := setParent s1 matched none
      match reset_iterators fuel s2 self with
      | none => none
      | some s3 => some (setParent s3 new (some self), none)
  else
    some (s, some PyErr.typeError)

/-- Method `Tree.get_root`: follow parent links while a parent exists. -/
def get_root : Nat → Store → Nat → Option Nat
  | 0, _, _ => none
  | fuel + 1, s, n =>
    match (s n).parent with
    | none => some n
    | some p => get_root fuel s p

/-- The `while parent is not reference` loop of `Tree.get_distance`, entered
with `parent = self.up` and `count = 1`.  Stepping above a parentless node
makes Python dereference `None` (`AttributeError`). -/
def distLoop : Nat → Store → Nat → Nat → Nat → Option (Except PyErr (Option Nat))
  | 0, _, _, _, _ => none
  | fuel + 1, s, ref, cur, count =>
    if cur = ref then some (Except.ok (some count))
    else
      match (s cur).parent with
      | none => some (Except.error PyErr.attributeError)
      | some q =>
        if is_root s q ∧ q ≠ ref then some (Except.ok none)
        else distLoop fuel s ref q (count + 1)

/-- Method `Tree.get_distance`: `0` for a root (before the reference is even looked
at); otherwise resolve a missing reference to `get_root()` and run the walk. -/
def get_distance (fuel : Nat) (s : Store) (n : Nat) (reference : Option Nat) :
    Option (Except PyErr (Option Nat)) :=
  if is_root s n then some (Except.ok (some 0))
  else
    let ref : Option Nat :=
      match reference with
      | none => get_root fuel s n
      | some r => some r
    match ref with
    | none => none
    | some r =>
      match (s n).parent with
      | none => none
      | some p => distLoop fuel s r p 1

/-- Method `Tree.get_layer` (with `key=None`): level 0 is `[self]`, level 1 the
children; deeper levels expand each entry of the previous layer by its
`is_leaf` flag. -/
def get_layer (s : Store) (self : Nat) : Nat → List Nat
  | 0 => [self]
  | 1 => (s self).children
  | n + 2 =>
    (get_layer s self (n + 1)).foldl
      (fun output child =>
        if (s child).is_leaf then output ++ [child]
        else output ++ (s child).children) []

/-- Method `Tree._raw_traverse`: pre-order — `self` first, then each child's full
subtree in children order. -/
def raw_traverse : Nat → Store → Nat → Option (List Nat)
  | 0, _, _ => none
  | fuel + 1, s, n =>
    ((s n).children.foldr
      (fun c acc =>
        match raw_traverse fuel s c, acc with
        | some l, some r => some (l ++ r)
        | _, _ => none)
      (some [])).map (fun tails => n :: tails)

/-- Method `Tree.traverse`: fill `_traversed` from `_raw_traverse` on a cache miss,
then serve the cached list. -/
def traverse (fuel : Nat) (s : Store) (n : Nat) : Option (List Nat × Store) :=
  match (s n).traversed with
  | some l => some (l, s)
  | none =>
    match raw_traverse fuel s n with
    | none => none
    | some l => some (l, setTraversed s n (some l))

/-- Method `Tree.get_reversed_path_to_root`: on a cache miss the raw generator yields
`self` and then the *cached* reversed path of the parent, so a single call
fills the caches of every ancestor as a side effect. -/
def get_reversed_path_to_root : Nat → Store → Nat → Option (List Nat × Store)
  | 0, _, _ => none
  | fuel + 1, s, n =>
    match (s n).reversed_path_to_root with
    | some l => some (l, s)
    | none =>
      match (s n).parent with
      | none => some ([n], setReversedPath s n (some [n]))
      | some p =>
        match get_reversed_path_to_root fuel s p with
        | none => none
        | some (pl, s1) => some (n :: pl, setReversedPath s1 n (some (n :: pl)))

/-- Method `Tree.iterate_leaves`: cache the leaves (by the `_is_leaf` flag) of the
cached traversal. -/
def iterate_leaves (fuel : Nat) (s : Store) (n : Nat) : Option (List Nat × Store) :=
  match (s n).iterated_leaves with
  | some l => some (l, s)
  | none =>
    match traverse fuel s n with
    | none => none
    | some (t, s1) =>
      let l := t.filter (fun m => (s1 m).is_leaf)
      some (l, setIteratedLeaves s1 n (some l))

/-- The reversed path to the root as determined by the current parent links
only (no caches): what `get_reversed_path_to_root` is documented to return. -/
def parentPath : Nat → Store → Nat → Option (List Nat)
  | 0, _, _ => none
  | fuel + 1, s, n =>
    match (s n).parent with
    | none => some [n]
    | some p => (parentPath fuel s p).map (fun l => n :: l)

/-! ## Concrete runs of the code

`fresh` is a heap of freshly constructed, unattached nodes; the concrete
scenarios below build small trees through the mutating operations themselves,
exactly as a Python caller would.  `acceptAll` is the `TestTree` validation
hook restricted to a homogeneous node population (its `isinstance` check then
always passes). -/

deriving instance DecidableEq for Except

def fresh : Store := fun _ => initNode

def acceptAll : Store → Nat → Nat → Bool := fun _ _ _ => true

/-- A validation hook that rejects everything (a hook that raises). -/
def rejectAll : Store → Nat → Nat → Bool := fun _ _ _ => false

/-- Add node 1 under node 0, then remove it again, and observe node 0's
children list and `_is_leaf` flag. -/
def c1Obs : Option (List Nat × Bool) :=
  match add_child acceptAll 10 fresh 0 1 with
  | some (s1, none) =>
    match remove 10 s1 0 1 with
    | some (s2, none) => some ((s2 0).children, (s2 0).is_leaf)
    | _ => none
  | _ => none

/-- Read node 1's path cache while it is detached, attach it under node 0, and
observe the cached path it then serves next to its actual reversed path. -/
def c2Obs : Option (List Nat × Option (List Nat)) :=
  match get_reversed_path_to_root 10 fresh 1 with
  | some (_, sA) =>
    match add_child acceptAll 10 sA 0 1 with
    | some (sB, none) =>
      match get_reversed_path_to_root 10 sB 1 with
      | some (cached, _) => some (cached, parentPath 10 sB 1)
      | none => none
    | _ => none
  | none => none

/-- Attach node 2 under node 0, then attach the *same* node under node 1, and
observe the raised error (if any), both children lists and node 2's parent. -/
def c3Obs : Option (Option PyErr × List Nat × List Nat × Option Nat) :=
  match add_child acceptAll 10 fresh 0 2 with
  | some (s1, none) =>
    match add_child acceptAll 10 s1 1 2 with
    | some (s2, e) => some (e, (s2 0).children, (s2 1).children, (s2 2).parent)
    | none => none
  | _ => none

/-- A two-edge chain 0 → 1 → 2 built through `add_child`. -/
def chainStore : Store :=
  match add_child acceptAll 10 fresh 0 1 with
  | some (s1, none) =>
    match add_child acceptAll 10 s1 1 2 with
    | some (s2, none) => s2
    | _ => fresh
  | _ => fresh

/-- Grow 0 → 1 → 2 and then remove node 2 from node 1, leaving node 1
childless but with a stale `_is_leaf = False` flag. -/
def c6Store : Store :=
  match remove 10 chainStore 1 2 with
  | some (s, none) => s
  | _ => fresh

/-- The heap with node 2 already attached under node 0 (the state before the
round-trip of claim C7). -/
def c7PreStore : Store :=
  match add_child acceptAll 10 fresh 0 2 with
  | some (s, none) => s
  | _ => fresh

/-- On `c7PreStore`, add node 2 under node 1 and remove it again; observe node
2's parent before the round trip and after it. -/
def c7Obs : Option (Option Nat × Option Nat) :=
  match add_child acceptAll 10 c7PreStore 1 2 with
  | some (s1, none) =>
    match remove 10 s1 1 2 with
    | some (s2, none) => some ((c7PreStore 2).parent, (s2 2).parent)
    | _ => none
  | _ => none

/-! ## The renderer (`TreeRepresentation.get_representation`)

Text is modelled as `List Char` (the character data of a Python `str`); string
concatenation is list append. -/

abbrev Str := List Char

def lastHook : Char := '└'

def continueHook : Char := '├'

def noHook : Char := '│'

def horizontalChar : Char := '─'

def blanks (k : Nat) : Str := List.replicate k ' '

/-- Helper `get_vertical` in `get_representation`. -/
def getVertical (s : Store) (n : Nat) : Str :=
  if is_last_child s n then [lastHook] else [continueHook]

/-- Helper `get_horizontal`: `space - 1` rules and one blank. -/
def getHorizontal (space : Nat) : Str :=
  List.replicate (space - 1) horizontalChar ++ [' ']

/-- One ancestor's contribution inside `get_path`. -/
def pathSeg (space : Nat) (s : Store) (a : Nat) : Str :=
  if is_last_child s a then blanks (space + 1) else noHook :: blanks space

/-- Helper `get_path`: walk the reversed path skipping `self` (index 0), prepending
each ancestor's segment. -/
def getPath (space : Nat) (s : Store) (l : List Nat) : Str :=
  (l.drop 1).foldl (fun path a => pathSeg space s a ++ path) []

/-- The `for node in self.tree.traverse()` loop body of `get_representation`:
each node's (cached, cache-filling) reversed path feeds `get_path`, then the
connector, rules, label and newline are appended. -/
def renderNodes (space : Nat) (key : Nat → Str) (fuel : Nat) :
    List Nat → Store → Str → Option (Str × Store)
  | [], s, acc => some (acc, s)
  | n :: rest, s, acc =>
    match get_reversed_path_to_root fuel s n with
    | none => none
    | some (pl, s1) =>
      renderNodes space key fuel rest s1
        (acc ++ (getPath space s1 pl ++ getVertical s1 n ++ getHorizontal space ++ key n ++ ['\n']))

/-- Method `TreeRepresentation.get_representation` with label function `key` and
width `space`. -/
def get_representation (fuel : Nat) (s : Store) (root : Nat) (key : Nat → Str)
    (space : Nat) : Option (Str × Store) :=
  match traverse fuel s root with
  | none => none
  | some (order, s1) => renderNodes space key fuel order s1 []

/-- A value assigned to `TreeRepresentation.space`: an `int` or something else. -/
inductive SpaceVal where
  | int (n : Int)
  | nonInt

/-- The `TreeRepresentation.space` property setter: `TypeError` for a
non-`int`, `ValueError` below 1. -/
def space_setter : SpaceVal → Except PyErr Int
  | SpaceVal.nonInt => Except.error PyErr.typeError
  | SpaceVal.int n => if n < 1 then Except.error PyErr.valueError else Except.ok n

/-- Method `Tree.get_tree_representation(key, space)`: builds a `TreeRepresentation`
with defaults (`str` labels, width 3) and overrides `key` and `space` only when
the passed values are truthy — so `space=0`, being falsy, is silently skipped
and the default width 3 is used, while any nonzero `space` goes through the
checking setter. -/
def get_tree_representation (fuel : Nat) (s : Store) (root : Nat)
    (strFn : Nat → Str) (key : Option (Nat → Str)) (space : Option Int) :
    Option (Except PyErr (Str × Store)) :=
  let k := match key with
    | none => strFn
    | some f => f
  let sp : Except PyErr Int :=
    match space with
    | none => Except.ok 3
    | some v => if v = 0 then Except.ok 3 else space_setter (SpaceVal.int v)
  match sp with
  | Except.error e => some (Except.error e)
  | Except.ok w => (get_representation fuel s root k w.toNat).map Except.ok

/-! ## Specification-side definitions (from the spec's wording, for the
refinement claims) -/

/-- Modelled from the spec: the per-layer expansion step of `get_layer` —
"replacing each non-leaf entry with its children and carrying each leaf entry
forward unchanged" (the code reads the `_is_leaf` flag). -/
def layerExpand (s : Store) (c : Nat) : List Nat :=
  if (s c).is_leaf then [c] else (s c).children

inductive IsPath (s : Store) : Nat → List Nat → Prop where
  | root : ∀ n, (s n).parent = none → IsPath s n [n]
  | step : ∀ n p rest, (s n).parent = some p → IsPath s p rest → IsPath s n (n :: rest)

/-- A node record with empty caches, as the mutating operations leave them. -/
def mkNode (p : Option Nat) (c : List Nat) (f : Bool) : Node :=
  { parent := p, children := c, traversed := none, iterated_leaves := none,
    reversed_path_to_root := none, is_leaf := f }

/-- A four-node chain 0 → 1 → 2 → 3 with accurate flags and empty caches. -/
def w4Store : Store := fun i =>
  if i = 0 then mkNode none [1] false
  else if i = 1 then mkNode (some 0) [2] false
  else if i = 2 then mkNode (some 1) [3] false
  else if i = 3 then mkNode (some 2) [] true
  else mkNode none [] true

/-- Like `w4Store`, but with node 2 already attached under node 3. -/
def w3Store : Store := fun i =>
  if i = 0 then mkNode none [1] false
  else if i = 1 then mkNode (some 0) [] true
  else if i = 2 then mkNode (some 3) [] true
  else if i = 3 then mkNode none [2] false
  else mkNode none [] true

/-- A root with three leaf children, for the `replace_child` witness. -/
def w5Store : Store := fun i =>
  if i = 0 then mkNode none [1, 2, 3] false
  else if i = 1 then mkNode (some 0) [] true
  else if i = 2 then mkNode (some 0) [] true
  else if i = 3 then mkNode (some 0) [] true
  else mkNode none [] true

theorem isPath_congr {s s' : Store} {n : Nat} {l : List Nat}
    (hpar : ∀ m ∈ l, (s' m).parent = (s m).parent)
    (h : IsPath s n l) : IsPath s' n l := by
  induction h with
  | root n hn =>
    exact IsPath.root n ((hpar n (List.mem_singleton.mpr rfl)).trans hn)
  | step n p rest hp h ih =>
    refine IsPath.step n p rest ((hpar n (List.mem_cons_self n rest)).trans hp) ?_
    exact ih fun m hm => hpar m (List.mem_cons_of_mem n hm)

theorem isPath_ne_nil {s : Store} {n : Nat} {l : List Nat} (h : IsPath s n l) :
    l ≠ [] := by
  cases h <;> simp

theorem isPath_head {s : Store} {n : Nat} {l : List Nat} (h : IsPath s n l) :
    ∃ t, l = n :: t := by
  cases h with
  | root _ _ => exact ⟨[], rfl⟩
  | step _ p rest _ _ => exact ⟨rest, rfl⟩

theorem update_self (s : Store) (i : Nat) (nd : Node) : update s i nd i = nd := by
  simp [update]

theorem update_ne (s : Store) (i : Nat) (nd : Node) {j : Nat} (h : j ≠ i) :
    update s i nd j = s j := by
  simp [update, h]

/-- Closed form of `_reset_iterators`: given a finite parent chain within
fuel, it clears the three caches of every node on the chain and touches
nothing else. -/
theorem reset_eq {s : Store} {n : Nat} {l : List Nat}
    (h : IsPath s n l) :
    ∀ {fuel : Nat}, l.length ≤ fuel →
      reset_iterators fuel s n =
        some (fun m => if m ∈ l then clearNode (s m) else s m) := by
  induction h with
  | root n hn =>
    intro fuel hf
    match fuel, hf with
    | fuel + 1, _ =>
      simp only [reset_iterators, hn]
      congr 1
      funext m
      by_cases hm : m = n
      · subst hm
        simp [clearCaches, update_self, List.mem_singleton]
      · rw [clearCaches, update_ne _ _ _ hm]
        simp [List.mem_singleton, hm]
  | step n p rest hp hrest ih =>
    intro fuel hf
    match fuel, hf with
    | fuel + 1, hf =>
      have hf' : rest.length ≤ fuel := by
        simpa [Nat.succ_le_succ_iff] using hf
      simp only [reset_iterators, hp, ih hf']
      congr 1
      funext m
      by_cases hm : m = n
      · subst hm
        rw [clearCaches, update_self]
        simp only [List.mem_cons, true_or, if_pos (Or.inl rfl)]
        by_cases hr : m ∈ rest
        · simp [hr, clearNode]
        · simp [hr]
      · rw [clearCaches, update_ne _ _ _ hm]
        simp [List.mem_cons, hm]

theorem setParent_eq (s : Store) (i : Nat) (p : Option Nat) (j : Nat) :
    (setParent s i p) j = { s j with parent := if j = i then p else (s j).parent } := by
  by_cases h : j = i
  · subst h; simp [setParent, update]
  · simp [setParent, update, h]

theorem setChildren_eq (s : Store) (i : Nat) (c : List Nat) (j : Nat) :
    (setChildren s i c) j = { s j with children := if j = i then c else (s j).children } := by
  by_cases h : j = i
  · subst h; simp [setChildren, update]
  · simp [setChildren, update, h]

theorem setTraversed_eq (s : Store) (i : Nat) (v : Option (List Nat)) (j : Nat) :
    (setTraversed s i v) j = { s j with traversed := if j = i then v else (s j).traversed } := by
  by_cases h : j = i
  · subst h; simp [setTraversed, update]
  · simp [setTraversed, update, h]

theorem setIsLeaf_eq (s : Store) (i : Nat) (b : Bool) (j : Nat) :
    (setIsLeaf s i b) j = { s j with is_leaf := if j = i then b else (s j).is_leaf } := by
  by_cases h : j = i
  · subst h; simp [setIsLeaf, update]
  · simp [setIsLeaf, update, h]

theorem clearNode_parent (nd : Node) : (clearNode nd).parent = nd.parent := rfl

theorem clearNode_children (nd : Node) : (clearNode nd).children = nd.children := rfl

theorem clearNode_is_leaf (nd : Node) : (clearNode nd).is_leaf = nd.is_leaf := rfl

theorem clearNode_traversed (nd : Node) : (clearNode nd).traversed = none := rfl

theorem clearNode_iterated (nd : Node) : (clearNode nd).iterated_leaves = none := rfl

theorem clearNode_reversed (nd : Node) : (clearNode nd).reversed_path_to_root = none := rfl

/-- Closed form of `add_child`, for a child that is not on the parent's own
root chain (so that the upward cache reset terminates): it succeeds with no
exception, appends the child, points the child's parent at `self`, forces
`self._is_leaf` to `False`, clears the caches of `self` and all its strict
ancestors, and leaves every other field of every node — in particular all
fields of every *other* node, and the child's own caches — untouched. -/
theorem add_child_aux (check : Store → Nat → Nat → Bool) {fuel : Nat} {s : Store}
    {p c : Nat} {anc : List Nat}
    (hchk : check s p c = true)
    (hpath : IsPath s p (p :: anc))
    (hcnot : c ∉ p :: anc)
    (hf : anc.length + 1 ≤ fuel) :
    ∃ s', add_child check fuel s p c = some (s', none) ∧
      (s' p).children = (s p).children ++ [c] ∧
      (s' c).parent = some p ∧
      (s' p).is_leaf = false ∧
      (s' p).parent = (s p).parent ∧
      (s' c).children = (s c).children ∧
      (∀ m, m ≠ p → m ≠ c →
        (s' m).parent = (s m).parent ∧ (s' m).children = (s m).children ∧
        (s' m).is_leaf = (s m).is_leaf) ∧
      (∀ m ∈ p :: anc,
        (s' m).traversed = none ∧ (s' m).iterated_leaves = none ∧
        (s' m).reversed_path_to_root = none) ∧
      (∀ m, m ∉ p :: anc →
        (s' m).traversed = (s m).traversed ∧
        (s' m).iterated_leaves = (s m).iterated_leaves ∧
        (s' m).reversed_path_to_root = (s m).reversed_path_to_root) := by
  have hcp : c ≠ p := fun h => hcnot (by simp [h])
  set s1 := setParent s c (some p) with hs1
  set s2 := setChildren s1 p ((s1 p).children ++ [c]) with hs2
  have hs2eq : ∀ m, s2 m =
      { s1 m with children := if m = p then (s1 p).children ++ [c] else (s1 m).children } :=
    fun m => setChildren_eq s1 p _ m
  have hs1eq : ∀ m, s1 m =
      { s m with parent := if m = c then some p else (s m).parent } :=
    fun m => setParent_eq s c (some p) m
  have hpar2 : ∀ m ∈ p :: anc, (s2 m).parent = (s m).parent := by
    intro m hm
    have hmc : m ≠ c := fun h => hcnot (h ▸ hm)
    rw [hs2eq, hs1eq]
    simp [hmc]
  have hpath2 : IsPath s2 p (p :: anc) := isPath_congr hpar2 hpath
  have hreset := reset_eq hpath2 (show _ ≤ fuel by simpa using hf)
  have h2par : ∀ m, (s2 m).parent = if m = c then some p else (s m).parent := by
    intro m; rw [hs2eq, hs1eq]
  have h2ch : ∀ m, (s2 m).children =
      if m = p then (s m).children ++ [c] else (s m).children := by
    intro m
    rw [hs2eq]
    by_cases hm : m = p <;> simp [hm, hs1eq]
  have h2flag : ∀ m, (s2 m).is_leaf = (s m).is_leaf := by
    intro m; rw [hs2eq, hs1eq]
  have h2tr : ∀ m, (s2 m).traversed = (s m).traversed := by
    intro m; rw [hs2eq, hs1eq]
  have h2il : ∀ m, (s2 m).iterated_leaves = (s m).iterated_leaves := by
    intro m; rw [hs2eq, hs1eq]
  have h2rp : ∀ m, (s2 m).reversed_path_to_root = (s m).reversed_path_to_root := by
    intro m; rw [hs2eq, hs1eq]
  set s3 : Store := fun m => if m ∈ p :: anc then clearNode (s2 m) else s2 m with hs3
  have h3par : ∀ m, (s3 m).parent = (s2 m).parent := by
    intro m; rw [hs3]; by_cases hm : m ∈ p :: anc <;> simp [hm, clearNode_parent]
  have h3ch : ∀ m, (s3 m).children = (s2 m).children := by
    intro m; rw [hs3]; by_cases hm : m ∈ p :: anc <;> simp [hm, clearNode_children]
  have h3flag : ∀ m, (s3 m).is_leaf = (s2 m).is_leaf := by
    intro m; rw [hs3]; by_cases hm : m ∈ p :: anc <;> simp [hm, clearNode_is_leaf]
  have h3mem : ∀ m ∈ p :: anc, (s3 m).traversed = none ∧
      (s3 m).iterated_leaves = none ∧ (s3 m).reversed_path_to_root = none := by
    intro m hm
    rw [hs3]
    simp [hm, clearNode_traversed, clearNode_iterated, clearNode_reversed]
  have h3not : ∀ m, m ∉ p :: anc → (s3 m).traversed = (s2 m).traversed ∧
      (s3 m).iterated_leaves = (s2 m).iterated_leaves ∧
      (s3 m).reversed_path_to_root = (s2 m).reversed_path_to_root := by
    intro m hm
    rw [hs3]
    simp [hm]
  set s4 : Store := if (s3 p).is_leaf then setIsLeaf s3 p false else s3 with hs4
  have h4same : ∀ m, (s4 m).parent = (s3 m).parent ∧ (s4 m).children = (s3 m).children ∧
      (s4 m).traversed = (s3 m).traversed ∧
      (s4 m).iterated_leaves = (s3 m).iterated_leaves ∧
      (s4 m).reversed_path_to_root = (s3 m).reversed_path_to_root := by
    intro m
    rw [hs4]
    by_cases hfl : (s3 p).is_leaf <;> simp [hfl, setIsLeaf_eq]
  have h4flagp : (s4 p).is_leaf = false := by
    rw [hs4]
    by_cases hfl : (s3 p).is_leaf <;> simp [hfl, setIsLeaf_eq]
  have h4flag : ∀ m, m ≠ p → (s4 m).is_leaf = (s3 m).is_leaf := by
    intro m hm
    rw [hs4]
    by_cases hfl : (s3 p).is_leaf <;> simp [hfl, setIsLeaf_eq, hm]
  refine ⟨s4, ?_, ?_, ?_, h4flagp, ?_, ?_, ?_, ?_, ?_⟩
  · simp only [add_child, hchk, if_true, ← hs1, ← hs2, hreset, ← hs3, ← hs4]
  · rw [(h4same p).2.1, h3ch, h2ch]; simp
  · rw [(h4same c).1, h3par, h2par]; simp
  · rw [(h4same p).1, h3par, h2par]; simp [Ne.symm hcp]
  · rw [(h4same c).2.1, h3ch, h2ch]
    simp [hcp]
  · intro m hmp hmc
    refine ⟨?_, ?_, ?_⟩
    · rw [(h4same m).1, h3par, h2par]; simp [hmc]
    · rw [(h4same m).2.1, h3ch, h2ch]; simp [hmp]
    · rw [h4flag m hmp, h3flag, h2flag]
  · intro m hm
    obtain ⟨ht, hi, hr⟩ := h3mem m hm
    exact ⟨((h4same m).2.2.1).trans ht, ((h4same m).2.2.2.1).trans hi,
      ((h4same m).2.2.2.2).trans hr⟩
  · intro m hm
    obtain ⟨ht, hi, hr⟩ := h3not m hm
    exact ⟨((h4same m).2.2.1).trans (ht.trans (h2tr m)),
      ((h4same m).2.2.2.1).trans (hi.trans (h2il m)),
      ((h4same m).2.2.2.2).trans (hr.trans (h2rp m))⟩

/-- Closed form of `remove`, for a child that is not on `self`'s own root
chain: it succeeds, deletes the first occurrence of the child, clears the
child's parent, clears the caches of `self` and its strict ancestors — and
leaves `self._is_leaf` exactly as it was. -/
theorem remove_aux {fuel : Nat} {s : Store} {p c : Nat} {anc : List Nat}
    (hmem : c ∈ (s p).children)
    (hpath : IsPath s p (p :: anc))
    (hcnot : c ∉ p :: anc)
    (hf : anc.length + 1 ≤ fuel) :
    ∃ s', remove fuel s p c = some (s', none) ∧
      (s' p).children = removeFirst c (s p).children ∧
      (s' c).parent = none ∧
      (s' p).is_leaf = (s p).is_leaf ∧
      (s' p).parent = (s p).parent ∧
      (s' c).children = (s c).children ∧
      (∀ m, m ≠ p → m ≠ c →
        (s' m).parent = (s m).parent ∧ (s' m).children = (s m).children ∧
        (s' m).is_leaf = (s m).is_leaf) ∧
      (∀ m ∈ p :: anc,
        (s' m).traversed = none ∧ (s' m).iterated_leaves = none ∧
        (s' m).reversed_path_to_root = none) ∧
      (∀ m, m ∉ p :: anc →
        (s' m).traversed = (s m).traversed ∧
        (s' m).iterated_leaves = (s m).iterated_leaves ∧
        (s' m).reversed_path_to_root = (s m).reversed_path_to_root) := by
  have hcp : c ≠ p := fun h => hcnot (by simp [h])
  set s1 := setParent s c none with hs1
  set s2 := setChildren s1 p (removeFirst c (s1 p).children) with hs2
  have hs1eq : ∀ m, s1 m =
      { s m with parent := if m = c then none else (s m).parent } :=
    fun m => setParent_eq s c none m
  have hs2eq : ∀ m, s2 m =
      { s1 m with children := if m = p then removeFirst c (s1 p).children
                              else (s1 m).children } :=
    fun m => setChildren_eq s1 p _ m
  have h2par : ∀ m, (s2 m).parent = if m = c then none else (s m).parent := by
    intro m; rw [hs2eq, hs1eq]
  have h2ch : ∀ m, (s2 m).children =
      if m = p then removeFirst c (s p).children else (s m).children := by
    intro m
    rw [hs2eq]
    by_cases hm : m = p <;> simp [hm, hs1eq]
  have h2flag : ∀ m, (s2 m).is_leaf = (s m).is_leaf := by
    intro m; rw [hs2eq, hs1eq]
  have h2tr : ∀ m, (s2 m).traversed = (s m).traversed := by
    intro m; rw [hs2eq, hs1eq]
  have h2il : ∀ m, (s2 m).iterated_leaves = (s m).iterated_leaves := by
    intro m; rw [hs2eq, hs1eq]
  have h2rp : ∀ m, (s2 m).reversed_path_to_root = (s m).reversed_path_to_root := by
    intro m; rw [hs2eq, hs1eq]
  have hpar2 : ∀ m ∈ p :: anc, (s2 m).parent = (s m).parent := by
    intro m hm
    have hmc : m ≠ c := fun h => hcnot (h ▸ hm)
    rw [h2par]; simp [hmc]
  have hpath2 : IsPath s2 p (p :: anc) := isPath_congr hpar2 hpath
  have hreset := reset_eq hpath2 (show _ ≤ fuel by simpa using hf)
  set s3 : Store := fun m => if m ∈ p :: anc then clearNode (s2 m) else s2 m with hs3
  have h3par : ∀ m, (s3 m).parent = (s2 m).parent := by
    intro m; rw [hs3]; by_cases hm : m ∈ p :: anc <;> simp [hm, clearNode_parent]
  have h3ch : ∀ m, (s3 m).children = (s2 m).children := by
    intro m; rw [hs3]; by_cases hm : m ∈ p :: anc <;> simp [hm, clearNode_children]
  have h3flag : ∀ m, (s3 m).is_leaf = (s2 m).is_leaf := by
    intro m; rw [hs3]; by_cases hm : m ∈ p :: anc <;> simp [hm, clearNode_is_leaf]
  refine ⟨s3, ?_, ?_, ?_, ?_, ?_, ?_, ?_, ?_, ?_⟩
  · simp only [remove, hmem, if_true, ← hs1, ← hs2, hreset, ← hs3]
  · rw [h3ch, h2ch]; simp
  · rw [h3par, h2par]; simp
  · rw [h3flag, h2flag]
  · rw [h3par, h2par]; simp [Ne.symm hcp]
  · rw [h3ch, h2ch]; simp [hcp]
  · intro m hmp hmc
    exact ⟨by rw [h3par, h2par]; simp [hmc], by rw [h3ch, h2ch]; simp [hmp],
      by rw [h3flag, h2flag]⟩
  · intro m hm
    rw [hs3]
    simp [hm, clearNode_traversed, clearNode_iterated, clearNode_reversed]
  · intro m hm
    rw [hs3]
    simp [hm, h2tr, h2il, h2rp]

theorem listIndex_append {a : Nat} {t : List Nat} (h : a ∉ t) (d : List Nat) :
    listIndex a (t ++ a :: d) = t.length := by
  induction t with
  | nil => simp [listIndex]
  | cons x xs ih =>
    have hx : x ≠ a := fun hh => h (by simp [hh])
    have h' : a ∉ xs := fun hh => h (by simp [hh])
    simp [listIndex, hx, ih h']

theorem removeFirst_append {a : Nat} {t : List Nat} (h : a ∉ t) (d : List Nat) :
    removeFirst a (t ++ a :: d) = t ++ d := by
  induction t with
  | nil => simp [removeFirst]
  | cons x xs ih =>
    have hx : x ≠ a := fun hh => h (by simp [hh])
    have h' : a ∉ xs := fun hh => h (by simp [hh])
    simp [removeFirst, hx, ih h']

theorem insertAt_append (a : Nat) (t d : List Nat) :
    insertAt t.length a (t ++ d) = t ++ a :: d := by
  induction t with
  | nil => simp [insertAt]
  | cons x xs ih => simpa [insertAt] using ih

/-- Closed form of `replace_child` on the success path: with the matched child
sitting at the boundary of `t` and `d` in the children list (first occurrence),
the result splices `new` into exactly that position, clears the matched child's
parent and points `new` at `self`. -/
theorem replace_child_aux (check : Store → Nat → Nat → Bool) {fuel : Nat}
    {s : Store} {self : Nat} {old : OldSel} {new index matched : Nat}
    {t d : List Nat} {anc : List Nat}
    (hch : (s self).children = t ++ matched :: d)
    (hnt : matched ∉ t)
    (hget : (listOfOlds s self old).get? index = some matched)
    (hchk : check s self new = true)
    (hpath : IsPath s self (self :: anc))
    (hmnot : matched ∉ self :: anc)
    (hnm : new ≠ matched)
    (hf : anc.length + 1 ≤ fuel) :
    ∃ s', replace_child check fuel s self old new index = some (s', none) ∧
      (s' self).children = t ++ new :: d ∧
      (s' matched).parent = none ∧
      (s' new).parent = some self ∧
      (∀ m ∈ self :: anc, (s' m).traversed = none ∧ (s' m).iterated_leaves = none ∧
        (s' m).reversed_path_to_root = none) ∧
      (∀ m, m ∉ self :: anc → (s' m).traversed = (s m).traversed ∧
        (s' m).iterated_leaves = (s m).iterated_leaves ∧
        (s' m).reversed_path_to_root = (s m).reversed_path_to_root) := by
  have holds : (listOfOlds s self old).isEmpty = false := by
    cases h0 : listOfOlds s self old with
    | nil => rw [h0] at hget; cases hget
    | cons _ _ => simp
  have hix : listIndex matched (s self).children = t.length := by
    rw [hch]; exact listIndex_append hnt d
  have hrm : removeFirst matched (s self).children = t ++ d := by
    rw [hch]; exact removeFirst_append hnt d
  set s1 := setChildren s self (insertAt (listIndex matched (s self).children) new
    (removeFirst matched (s self).children)) with hs1
  set s2 := setParent s1 matched none with hs2
  have hs1eq : ∀ m, s1 m =
      { s m with children := if m = self then (insertAt (listIndex matched (s self).children) new (removeFirst matched (s self).children)) else (s m).children } :=
    fun m => setChildren_eq s self _ m
  have hs2eq : ∀ m, s2 m =
      { s1 m with parent := if m = matched then none else (s1 m).parent } :=
    fun m => setParent_eq s1 matched none m
  have h2par : ∀ m, (s2 m).parent = if m = matched then none else (s m).parent := by
    intro m; rw [hs2eq, hs1eq]
  have h2ch : ∀ m, (s2 m).children = if m = self then t ++ new :: d else (s m).children := by
    intro m
    rw [hs2eq, hs1eq]
    by_cases hm : m = self <;> simp [hm, hix, hrm, insertAt_append]
  have h2tr : ∀ m, (s2 m).traversed = (s m).traversed := by
    intro m; rw [hs2eq, hs1eq]
  have h2il : ∀ m, (s2 m).iterated_leaves = (s m).iterated_leaves := by
    intro m; rw [hs2eq, hs1eq]
  have h2rp : ∀ m, (s2 m).reversed_path_to_root = (s m).reversed_path_to_root := by
    intro m; rw [hs2eq, hs1eq]
  have hpar2 : ∀ m ∈ self :: anc, (s2 m).parent = (s m).parent := by
    intro m hm
    have hmm : m ≠ matched := fun h => hmnot (h ▸ hm)
    rw [h2par]; simp [hmm]
  have hpath2 : IsPath s2 self (self :: anc) := isPath_congr hpar2 hpath
  have hreset := reset_eq hpath2 (show _ ≤ fuel by simpa using hf)
  set s3 : Store := fun m => if m ∈ self :: anc then clearNode (s2 m) else s2 m with hs3
  have h3par : ∀ m, (s3 m).parent = (s2 m).parent := by
    intro m; rw [hs3]; by_cases hm : m ∈ self :: anc <;> simp [hm, clearNode_parent]
  have h3ch : ∀ m, (s3 m).children = (s2 m).children := by
    intro m; rw [hs3]; by_cases hm : m ∈ self :: anc <;> simp [hm, clearNode_children]
  set s4 := setParent s3 new (some self) with hs4
  have hs4eq : ∀ m, s4 m =
      { s3 m with parent := if m = new then some self else (s3 m).parent } :=
    fun m => setParent_eq s3 new (some self) m
  have h4tr : ∀ m, (s4 m).traversed = (s3 m).traversed := by
    intro m; rw [hs4eq]
  have h4il : ∀ m, (s4 m).iterated_leaves = (s3 m).iterated_leaves := by
    intro m; rw [hs4eq]
  have h4rp : ∀ m, (s4 m).reversed_path_to_root = (s3 m).reversed_path_to_root := by
    intro m; rw [hs4eq]
  refine ⟨s4, ?_, ?_, ?_, ?_, ?_, ?_⟩
  · simp only [replace_child, holds, Bool.false_eq_true, if_false, hchk, if_true,
      hget, ← hs1, ← hs2, hreset, ← hs3, ← hs4]
  · rw [hs4eq]
    have : ({ s3 self with parent := if self = new then some self
        else (s3 self).parent } : Node).children = (s3 self).children := rfl
    rw [this, h3ch, h2ch]; simp
  · rw [hs4eq]
    have : ({ s3 matched with parent := if matched = new then some self
        else (s3 matched).parent } : Node).parent =
        if matched = new then some self else (s3 matched).parent := rfl
    rw [this, h3par, h2par]
    simp [Ne.symm hnm]
  · rw [hs4eq]; simp
  · intro m hm
    have h3m : s3 m = clearNode (s2 m) := by rw [hs3]; simp [hm]
    refine ⟨(h4tr m).trans ?_, (h4il m).trans ?_, (h4rp m).trans ?_⟩
    · rw [h3m]; rfl
    · rw [h3m]; rfl
    · rw [h3m]; rfl
  · intro m hm
    have h3m : s3 m = s2 m := by rw [hs3]; simp [hm]
    refine ⟨(h4tr m).trans ?_, (h4il m).trans ?_, (h4rp m).trans ?_⟩
    · rw [h3m]; exact h2tr m
    · rw [h3m]; exact h2il m
    · rw [h3m]; exact h2rp m

theorem foldl_expand_general (s : Store) :
    ∀ (l acc : List Nat),
      l.foldl (fun output child => if (s child).is_leaf then output ++ [child]
        else output ++ (s child).children) acc = acc ++ (l.map (layerExpand s)).flatten := by
  intro l
  induction l with
  | nil => intro acc; simp
  | cons x xs ih =>
    intro acc
    simp only [List.foldl_cons, ih, List.map_cons, List.flatten_cons]
    by_cases hx : (s x).is_leaf <;> simp [layerExpand, hx, List.append_assoc]

/-- The `level ≥ 2` arm of `get_layer`, as a map-and-flatten of the previous
layer. -/
theorem get_layer_flatten (s : Store) (self : Nat) (n : Nat) :
    get_layer s self (n + 2) = ((get_layer s self (n + 1)).map (layerExpand s)).flatten := by
  have h := foldl_expand_general s (get_layer s self (n + 1)) []
  simpa [get_layer] using h

/-- An entry whose `_is_leaf` flag is set survives into the next layer. -/
theorem get_layer_step {s : Store} {self c m : Nat} (hflag : (s c).is_leaf = true)
    (hc : c ∈ get_layer s self (m + 1)) : c ∈ get_layer s self (m + 2) := by
  rw [get_layer_flatten]
  exact List.mem_flatten.2 ⟨[c], List.mem_map.2 ⟨c, hc, by simp [layerExpand, hflag]⟩, by simp⟩

/-- An entry of any layer past the root layer whose `_is_leaf` flag is set
stays in every deeper layer. -/
theorem get_layer_persist {s : Store} {self c n : Nat} (hflag : (s c).is_leaf = true)
    (hc : c ∈ get_layer s self (n + 1)) :
    ∀ k, n + 1 ≤ k → c ∈ get_layer s self k := by
  intro k hk
  induction k, hk using Nat.le_induction with
  | base => exact hc
  | succ k hk ih =>
    obtain ⟨m, rfl⟩ : ∃ m, k = m + 1 := ⟨k - 1, by omega⟩
    exact get_layer_step hflag ih

/-- Walking `get_root` returns the endpoint of the parent chain. -/
theorem get_root_eq {s : Store} {n rt : Nat} {l init : List Nat}
    (hp : IsPath s n l) :
    ∀ {fuel : Nat}, l = init ++ [rt] → l.length ≤ fuel → get_root fuel s n = some rt := by
  induction hp generalizing init with
  | root n hn =>
    intro fuel hl hf
    cases init with
    | nil =>
      simp only [List.nil_append, List.cons.injEq] at hl
      obtain ⟨rfl, -⟩ := hl
      match fuel, hf with
      | fuel + 1, _ => simp [get_root, hn]
    | cons i init' =>
      exfalso
      have := congrArg List.length hl
      simp at this
  | step n p rest hp' hrest ih =>
    intro fuel hl hf
    cases init with
    | nil =>
      exfalso
      simp only [List.nil_append, List.cons.injEq] at hl
      exact isPath_ne_nil hrest hl.2
    | cons i init' =>
      simp only [List.cons_append, List.cons.injEq] at hl
      match fuel, hf with
      | fuel + 1, hf =>
        have h1 : rest.length ≤ fuel := by simpa [Nat.succ_le_succ_iff] using hf
        simp [get_root, hp', ih hl.2 h1]

theorem isRoot_of_parent_none {s : Store} {n : Nat} (h : (s n).parent = none) :
    is_root s n = true := by
  simp [is_root, h]

theorem parent_none_of_isRoot {s : Store} {n : Nat} (h : is_root s n = true) :
    (s n).parent = none := by
  simpa [is_root, Option.isNone_iff_eq_none] using h

/-- The `while` loop of `get_distance` when the reference sits on the chain:
it stops at the reference's first occurrence, adding its hop count. -/
theorem distLoop_found {s : Store} {cur : Nat} {l : List Nat}
    (hp : IsPath s cur l) :
    ∀ {fuel count ref : Nat} {pre post : List Nat},
      l = pre ++ ref :: post → ref ∉ pre → l.length ≤ fuel →
      distLoop fuel s ref cur count = some (Except.ok (some (count + pre.length))) := by
  induction hp with
  | root n hn =>
    intro fuel count ref pre post hl hpre hf
    cases pre with
    | nil =>
      simp only [List.nil_append, List.cons.injEq] at hl
      match fuel, hf with
      | fuel + 1, _ => simp [distLoop, hl.1]
    | cons x pre' =>
      exfalso
      have := congrArg List.length hl
      simp at this
  | step n p rest hp' hrest ih =>
    intro fuel count ref pre post hl hpre hf
    cases pre with
    | nil =>
      simp only [List.nil_append, List.cons.injEq] at hl
      match fuel, hf with
      | fuel + 1, _ => simp [distLoop, hl.1]
    | cons x pre' =>
      simp only [List.cons_append, List.cons.injEq] at hl
      obtain ⟨hxn, hrest_eq⟩ := hl
      have hrefn : ¬ (n = ref) := by
        intro h
        exact hpre (List.mem_cons.mpr (Or.inl (h ▸ hxn)))
      have hrefpre' : ref ∉ pre' := fun h => hpre (by simp [h])
      match fuel, hf with
      | fuel + 1, hf =>
        have h1 : rest.length ≤ fuel := by simpa [Nat.succ_le_succ_iff] using hf
        have hrec := @ih fuel (count + 1) ref pre' post hrest_eq hrefpre' h1
        have hcond : ¬ (is_root s p = true ∧ p ≠ ref) := by
          rintro ⟨hroot, hpne⟩
          have hrestp : rest = [p] := by
            cases hrest with
            | root _ _ => rfl
            | step _ q rest2 hq _ =>
              rw [parent_none_of_isRoot hroot] at hq
              cases hq
          rw [hrestp] at hrest_eq
          cases pre' with
          | nil =>
            simp only [List.nil_append, List.cons.injEq] at hrest_eq
            exact hpne hrest_eq.1
          | cons y pre'' =>
            have := congrArg List.length hrest_eq
            simp at this
        have harith : count + 1 + pre'.length = count + (x :: pre').length := by
          simp only [List.length_cons]
          omega
        simp only [distLoop, if_neg hrefn, hp', if_neg hcond, hrec, harith]

/-- The `while` loop of `get_distance` when the reference is not on the chain:
`None` once the walk reaches a root that is not the reference, but an
`AttributeError` if the walk starts at a root (stepping above it dereferences
`None`). -/
theorem distLoop_notFound {s : Store} {cur : Nat} {l : List Nat}
    (hp : IsPath s cur l) :
    ∀ {fuel count ref : Nat}, ref ∉ l → l.length ≤ fuel →
      distLoop fuel s ref cur count =
        (if 2 ≤ l.length then some (Except.ok none)
         else some (Except.error PyErr.attributeError)) := by
  induction hp with
  | root n hn =>
    intro fuel count ref hr hf
    match fuel, hf with
    | fuel + 1, _ =>
      have hnref : ¬ (n = ref) := fun h => hr (by simp [h])
      simp [distLoop, hnref, hn]
  | step n p rest hp' hrest ih =>
    intro fuel count ref hr hf
    match fuel, hf with
    | fuel + 1, hf =>
      have hnref : ¬ (n = ref) := fun h => hr (by simp [h])
      have hrrest : ref ∉ rest := fun h => hr (by simp [h])
      have h1 : rest.length ≤ fuel := by simpa [Nat.succ_le_succ_iff] using hf
      have hlen2 : 2 ≤ (n :: rest).length := by
        have hne := isPath_ne_nil hrest
        cases rest with
        | nil => exact absurd rfl hne
        | cons _ _ => simp
      rw [if_pos hlen2]
      by_cases hroot : is_root s p
      · have hpref : p ≠ ref := by
          intro h
          apply hrrest
          cases hrest with
          | root _ _ => exact List.mem_singleton.mpr h.symm
          | step _ q r2 hq _ =>
            rw [parent_none_of_isRoot hroot] at hq
            cases hq
        simp [distLoop, hnref, hp', hroot, hpref]
      · have hcond : ¬ (is_root s p = true ∧ p ≠ ref) := fun h => hroot h.1
        have hrec := @ih fuel (count + 1) ref hrrest h1
        have hrl2 : 2 ≤ rest.length := by
          cases hrest with
          | root _ hq => exact absurd (isRoot_of_parent_none hq) hroot
          | step _ q r2 hq hr2 =>
            have hne := isPath_ne_nil hr2
            cases r2 with
            | nil => exact absurd rfl hne
            | cons _ _ => simp
        rw [if_pos hrl2] at hrec
        simp [distLoop, hnref, hp', hcond, hrec]

/-- C1: the claim — after every mutating operation, `n.is_leaf()` is true iff
`n.get_children()` is empty — is violated by the code: `remove` never restores
the `_is_leaf` flag.  Adding one child to a fresh node and removing it again
leaves the children list empty while `is_leaf` still returns `False`,
contradicting the property's own docstring ("True if self has no children"). -/
theorem C1_is_leaf_stale_after_remove : c1Obs = some ([], false) := by decide

/-- C2 counterexample: a cached derived view IS observed stale.  Read the
detached node 1's reversed-path cache (`[1]`), attach node 1 under node 0,
and the next `get_reversed_path_to_root` on node 1 still serves the
pre-mutation `[1]`, though the node's actual reversed path to root is now
`[1, 0]`. -/
theorem C2_cex_stale_child_cache :
    c2Obs = some ([1], some [1, 0]) ∧ ([1] : List Nat) ≠ [1, 0] := by decide

/-- C2 (amended): each structural mutation — `add_child`, `remove`,
`replace_child` — invalidates the three caches of the mutated node and of
every strict ancestor up to the root, and of no other node: in particular the
attached, removed, or replaced child keeps its own caches byte for byte, so
its cached reversed path to root can later be observed stale. -/
theorem C2_mutation_invalidation (check : Store → Nat → Nat → Bool)
    {fuel : Nat} (s : Store) :
    (∀ p c anc, check s p c = true → IsPath s p (p :: anc) → c ∉ p :: anc →
      anc.length + 1 ≤ fuel →
      ∃ s', add_child check fuel s p c = some (s', none) ∧
        (∀ m ∈ p :: anc, (s' m).traversed = none ∧ (s' m).iterated_leaves = none ∧
          (s' m).reversed_path_to_root = none) ∧
        (∀ m, m ∉ p :: anc → (s' m).traversed = (s m).traversed ∧
          (s' m).iterated_leaves = (s m).iterated_leaves ∧
          (s' m).reversed_path_to_root = (s m).reversed_path_to_root)) ∧
    (∀ p c anc, c ∈ (s p).children → IsPath s p (p :: anc) → c ∉ p :: anc →
      anc.length + 1 ≤ fuel →
      ∃ s', remove fuel s p c = some (s', none) ∧
        (∀ m ∈ p :: anc, (s' m).traversed = none ∧ (s' m).iterated_leaves = none ∧
          (s' m).reversed_path_to_root = none) ∧
        (∀ m, m ∉ p :: anc → (s' m).traversed = (s m).traversed ∧
          (s' m).iterated_leaves = (s m).iterated_leaves ∧
          (s' m).reversed_path_to_root = (s m).reversed_path_to_root)) ∧
    (∀ self old new index matched t d anc,
      (s self).children = t ++ matched :: d → matched ∉ t →
      (listOfOlds s self old).get? index = some matched →
      check s self new = true →
      IsPath s self (self :: anc) → matched ∉ self :: anc → new ≠ matched →
      anc.length + 1 ≤ fuel →
      ∃ s', replace_child check fuel s self old new index = some (s', none) ∧
        (∀ m ∈ self :: anc, (s' m).traversed = none ∧ (s' m).iterated_leaves = none ∧
          (s' m).reversed_path_to_root = none) ∧
        (∀ m, m ∉ self :: anc → (s' m).traversed = (s m).traversed ∧
          (s' m).iterated_leaves = (s m).iterated_leaves ∧
          (s' m).reversed_path_to_root = (s m).reversed_path_to_root)) := by
  refine ⟨?_, ?_, ?_⟩
  · intro p c anc hchk hpath hcnot hf
    obtain ⟨s', h1, _, _, _, _, _, _, h8, h9⟩ := add_child_aux check hchk hpath hcnot hf
    exact ⟨s', h1, h8, h9⟩
  · intro p c anc hmem hpath hcnot hf
    obtain ⟨s', h1, _, _, _, _, _, _, h8, h9⟩ := remove_aux hmem hpath hcnot hf
    exact ⟨s', h1, h8, h9⟩
  · intro self old new index matched t d anc hch hnt hget hchk hpath hmnot hnm hf
    obtain ⟨s', h1, -, -, -, h5, h6⟩ :=
      replace_child_aux check hch hnt hget hchk hpath hmnot hnm hf
    exact ⟨s', h1, h5, h6⟩

/-- Witness for `C2_mutation_invalidation` on the chain `0 → 1 → 2 → 3`:
attach fresh node 9 under node 1, remove node 2 from node 1, and replace node
1's only child 2 by node 9 — each time the caches of node 1 and the root are
cleared while the touched child's caches are untouched. -/
theorem C2_mutation_invalidation_witness :
    (∃ s', add_child acceptAll 5 w4Store 1 9 = some (s', none) ∧
      (∀ m ∈ [1, 0], (s' m).traversed = none ∧ (s' m).iterated_leaves = none ∧
        (s' m).reversed_path_to_root = none) ∧
      (∀ m, m ∉ [1, 0] → (s' m).traversed = (w4Store m).traversed ∧
        (s' m).iterated_leaves = (w4Store m).iterated_leaves ∧
        (s' m).reversed_path_to_root = (w4Store m).reversed_path_to_root)) ∧
    (∃ s', remove 5 w4Store 1 2 = some (s', none) ∧
      (∀ m ∈ [1, 0], (s' m).traversed = none ∧ (s' m).iterated_leaves = none ∧
        (s' m).reversed_path_to_root = none) ∧
      (∀ m, m ∉ [1, 0] → (s' m).traversed = (w4Store m).traversed ∧
        (s' m).iterated_leaves = (w4Store m).iterated_leaves ∧
        (s' m).reversed_path_to_root = (w4Store m).reversed_path_to_root)) ∧
    (∃ s', replace_child acceptAll 5 w4Store 1 (OldSel.byNode 2) 9 0 = some (s', none) ∧
      (∀ m ∈ [1, 0], (s' m).traversed = none ∧ (s' m).iterated_leaves = none ∧
        (s' m).reversed_path_to_root = none) ∧
      (∀ m, m ∉ [1, 0] → (s' m).traversed = (w4Store m).traversed ∧
        (s' m).iterated_leaves = (w4Store m).iterated_leaves ∧
        (s' m).reversed_path_to_root = (w4Store m).reversed_path_to_root)) := by
  have h := @C2_mutation_invalidation acceptAll 5 w4Store
  have hp1 : IsPath w4Store 1 [1, 0] := IsPath.step 1 0 [0] rfl (IsPath.root 0 rfl)
  exact ⟨h.1 1 9 [0] rfl hp1 (by decide) (by decide),
    h.2.1 1 2 [0] (by decide) hp1 (by decide) (by decide),
    h.2.2 1 (OldSel.byNode 2) 9 0 2 [] [] [0] rfl (by decide) (by decide) rfl hp1
      (by decide) (by decide) (by decide)⟩

/-- C3 counterexample: `add_child` raises no `AlreadyAttached`-style error.
Node 2 is attached under node 0, then the same node is added under node 1:
the second call returns with no exception (`none`), and node 2 now sits in
both children lists `[2]` and `[2]`, with its parent pointing at node 1. -/
theorem C3_cex_no_already_attached_error :
    c3Obs = some (none, [2], [2], some 1) := by decide

/-- C3 (amended): `add_child` performs no attachment check: even when the
child already has a parent `q` and sits in `q`'s children list, the call
succeeds without error, appends the child to the new parent's children and
repoints the child's parent, while `q`'s children sequence still references
the child — one node referenced by two parents' children sequences. -/
theorem C3_add_child_double_attach (check : Store → Nat → Nat → Bool)
    {fuel : Nat} {s : Store} {p c q : Nat} {anc : List Nat}
    (hchk : check s p c = true) (hpath : IsPath s p (p :: anc))
    (hcnot : c ∉ p :: anc) (hf : anc.length + 1 ≤ fuel)
    (hq : (s c).parent = some q) (hqm : c ∈ (s q).children)
    (hqp : q ≠ p) (hqc : q ≠ c) :
    ∃ s', add_child check fuel s p c = some (s', none) ∧
      c ∈ (s' p).children ∧ c ∈ (s' q).children ∧ (s' c).parent = some p := by
  obtain ⟨s', h1, h2, h3, _, _, _, h7, _, _⟩ := add_child_aux check hchk hpath hcnot hf
  refine ⟨s', h1, ?_, ?_, h3⟩
  · rw [h2]; simp
  · rw [(h7 q hqp hqc).2.1]
    exact hqm

/-- Witness for `C3_add_child_double_attach`: node 2 is attached under node 3
in `w3Store` and gets added under node 1 as well. -/
theorem C3_add_child_double_attach_witness :
    ∃ s', add_child acceptAll 5 w3Store 1 2 = some (s', none) ∧
      (2 : Nat) ∈ (s' 1).children ∧ (2 : Nat) ∈ (s' 3).children ∧
      (s' 2).parent = some 1 :=
  C3_add_child_double_attach acceptAll rfl
    (IsPath.step 1 0 [0] rfl (IsPath.root 0 rfl)) (by decide) (by decide)
    rfl (by decide) (by decide) (by decide)

/-- C7 counterexample: the round trip does NOT restore `c.get_parent()` when
`c` was already attached elsewhere.  With node 2 attached under node 0
(`c7PreStore`), running `add_child` then `remove` on node 1 leaves node 2's
parent `none`, not its pre-round-trip value `some 0`. -/
theorem C7_cex_roundtrip_attached :
    c7Obs = some (some 0, none) ∧ (some 0 : Option Nat) ≠ none := by decide

/-- C7 (amended): for a *detached* child (`c.get_parent()` is none and `c` not
already among `p`'s children) accepted by the hook, `p.add_child(c)` followed
by `p.remove(c)` restores `p`'s children sequence exactly (sibling order
included) and returns `c.get_parent()` to its prior value. -/
theorem C7_roundtrip_detached (check : Store → Nat → Nat → Bool)
    {fuel : Nat} {s : Store} {p c : Nat} {anc : List Nat}
    (hchk : check s p c = true)
    (hparent : (s c).parent = none)
    (hmem : c ∉ (s p).children)
    (hpath : IsPath s p (p :: anc))
    (hcnot : c ∉ p :: anc)
    (hf : anc.length + 1 ≤ fuel) :
    ∃ s1 s2, add_child check fuel s p c = some (s1, none) ∧
      remove fuel s1 p c = some (s2, none) ∧
      (s2 p).children = (s p).children ∧
      (s2 c).parent = (s c).parent := by
  obtain ⟨s1, h1, h2, h3, _, h5, h6, h7, _, _⟩ := add_child_aux check hchk hpath hcnot hf
  have hpar1 : ∀ m ∈ p :: anc, (s1 m).parent = (s m).parent := by
    intro m hm
    by_cases hmp : m = p
    · subst hmp; exact h5
    · exact (h7 m hmp (fun hmc => hcnot (hmc ▸ hm))).1
  have hpath1 : IsPath s1 p (p :: anc) := isPath_congr hpar1 hpath
  have hmem1 : c ∈ (s1 p).children := by rw [h2]; simp
  obtain ⟨s2, g1, g2, g3, _, _, _, _, _, _⟩ := remove_aux hmem1 hpath1 hcnot hf
  refine ⟨s1, s2, h1, g1, ?_, ?_⟩
  · rw [g2, h2]
    have := removeFirst_append (a := c) (t := (s p).children) hmem []
    simpa using this
  · rw [g3, hparent]

/-- Witness for `C7_roundtrip_detached`: round-tripping fresh node 9 under
node 1 of the chain store. -/
theorem C7_roundtrip_detached_witness :
    ∃ s1 s2, add_child acceptAll 5 w4Store 1 9 = some (s1, none) ∧
      remove 5 s1 1 9 = some (s2, none) ∧
      (s2 1).children = (w4Store 1).children ∧
      (s2 9).parent = (w4Store 9).parent :=
  C7_roundtrip_detached acceptAll rfl rfl (by decide)
    (IsPath.step 1 0 [0] rfl (IsPath.root 0 rfl)) (by decide) (by decide)

/-- C4 counterexample: `get_distance(r)` with `r` the node itself does NOT
return 0.  On the chain `0 → 1 → 2` built by `add_child`, node 2's distance to
itself evaluates to `None`, not `0` — the walk starts at the parent and never
compares against `self`. -/
theorem C4_cex_self_distance :
    get_distance 10 chainStore 2 (some 2) = some (Except.ok none) ∧
      (some (Except.ok none) : Option (Except PyErr (Option Nat))) ≠
        some (Except.ok (some 0)) := by
  constructor
  · decide
  · decide

/-- C4 (amended): `get_distance` returns the hop count exactly for a strict
ancestor reference (first occurrence on the chain); a root returns 0 for every
reference, even an unrelated one; a reference not among the strict ancestors —
including the node itself — yields `None` at depth ≥ 2 but raises an
`AttributeError` at depth 1; with no reference it returns the distance to the
root. -/
theorem C4_get_distance_spec {s : Store} {n : Nat} {anc : List Nat} {fuel : Nat} :
    (is_root s n = true → ∀ r, get_distance fuel s n r = some (Except.ok (some 0))) ∧
    (∀ r pre post, IsPath s n (n :: anc) → anc = pre ++ r :: post → r ∉ pre →
      anc.length + 1 ≤ fuel →
      get_distance fuel s n (some r) = some (Except.ok (some (pre.length + 1)))) ∧
    (∀ r, IsPath s n (n :: anc) → anc ≠ [] → r ∉ anc → anc.length + 1 ≤ fuel →
      get_distance fuel s n (some r) =
        (if 2 ≤ anc.length then some (Except.ok none)
         else some (Except.error PyErr.attributeError))) ∧
    (∀ pre rt, IsPath s n (n :: anc) → anc = pre ++ [rt] → rt ∉ pre →
      anc.length + 1 ≤ fuel →
      get_distance fuel s n none = some (Except.ok (some anc.length))) := by
  refine ⟨?_, ?_, ?_, ?_⟩
  · intro hroot r
    simp [get_distance, hroot]
  · intro r pre post hpath heq hpre hf
    cases hpath with
    | root _ hn =>
      exfalso
      cases pre <;> simp at heq
    | step _ p rest hp hrest =>
      have hroot : is_root s n = false := by simp [is_root, hp]
      have hlen : anc.length ≤ fuel := Nat.le_of_succ_le hf
      have hdl := @distLoop_found s p anc hrest fuel 1 r pre post heq hpre hlen
      have harith : 1 + pre.length = pre.length + 1 := Nat.add_comm 1 pre.length
      rw [harith] at hdl
      simp only [get_distance, hroot, Bool.false_eq_true, if_false, hp, hdl]
  · intro r hpath hne hr hf
    cases hpath with
    | root _ hn =>
      exact absurd rfl hne
    | step _ p rest hp hrest =>
      have hroot : is_root s n = false := by simp [is_root, hp]
      have hlen : anc.length ≤ fuel := Nat.le_of_succ_le hf
      have hdl := @distLoop_notFound s p anc hrest fuel 1 r hr hlen
      simp only [get_distance, hroot, Bool.false_eq_true, if_false, hp, hdl]
  · intro pre rt hpath heq hpre hf
    cases hpath with
    | root _ hn =>
      exfalso
      cases pre <;> simp at heq
    | step _ p rest hp hrest =>
      have hroot : is_root s n = false := by simp [is_root, hp]
      have hlen : anc.length ≤ fuel := Nat.le_of_succ_le hf
      have hgr : get_root fuel s n = some rt := by
        have hl2 : n :: anc = (n :: pre) ++ [rt] := by rw [heq]; rfl
        have hlf : (n :: anc).length ≤ fuel := by simpa using hf
        exact @get_root_eq s n rt (n :: anc) (n :: pre) (IsPath.step n p anc hp hrest) fuel hl2 hlf
      have heq' : anc = pre ++ rt :: [] := heq
      have hdl := @distLoop_found s p anc hrest fuel 1 rt pre [] heq' hpre hlen
      have harith : 1 + pre.length = anc.length := by
        rw [heq]
        simp
        omega
      rw [harith] at hdl
      simp only [get_distance, hroot, Bool.false_eq_true, if_false, hgr, hp, hdl]

/-- Witness for `C4_get_distance_spec` on the chain `0 → 1 → 2 → 3`: a root's
distance is 0 even to an unrelated reference; node 3's distance to its strict
ancestor 1 is 2 and to the root is 3; an off-chain reference gives `None` from
node 3 (depth 3) but an `AttributeError` from node 1 (depth 1). -/
theorem C4_get_distance_spec_witness :
    get_distance 10 w4Store 0 (some 99) = some (Except.ok (some 0)) ∧
    get_distance 10 w4Store 3 (some 1) = some (Except.ok (some 2)) ∧
    get_distance 10 w4Store 3 (some 9) = some (Except.ok none) ∧
    get_distance 10 w4Store 1 (some 9) = some (Except.error PyErr.attributeError) ∧
    get_distance 10 w4Store 3 none = some (Except.ok (some 3)) := by
  have hp3 : IsPath w4Store 3 [3, 2, 1, 0] :=
    IsPath.step 3 2 [2, 1, 0] rfl (IsPath.step 2 1 [1, 0] rfl
      (IsPath.step 1 0 [0] rfl (IsPath.root 0 rfl)))
  have hp1 : IsPath w4Store 1 [1, 0] := IsPath.step 1 0 [0] rfl (IsPath.root 0 rfl)
  refine ⟨?_, ?_, ?_, ?_, ?_⟩
  · exact (@C4_get_distance_spec w4Store 0 [] 10).1 rfl (some 99)
  · exact (@C4_get_distance_spec w4Store 3 [2, 1, 0] 10).2.1 1 [2] [0] hp3 rfl
      (by decide) (by decide)
  · have h := (@C4_get_distance_spec w4Store 3 [2, 1, 0] 10).2.2.1 9 hp3
      (by decide) (by decide) (by decide)
    simpa using h
  · have h := (@C4_get_distance_spec w4Store 1 [0] 10).2.2.1 9 hp1
      (by decide) (by decide) (by decide)
    simpa using h
  · exact (@C4_get_distance_spec w4Store 3 [2, 1, 0] 10).2.2.2 [2, 1] 0 hp3 rfl
      (by decide) (by decide)

/-- C5: `replace_child` raises `ValueError` (the spec's NotFound) when no
child matches `old`, the hook's error (InvalidChild) when `new` is rejected,
and `IndexError` (IndexOutOfRange) when the occurrence index exceeds the match
set — each failure returning the heap exactly as it was — and on success it
splices `new` into exactly the matched child's sequence position, sets the
matched child's parent to none and `new`'s parent to `self`. -/
theorem C5_replace_child_spec (check : Store → Nat → Nat → Bool) (fuel : Nat)
    (s : Store) (self : Nat) (old : OldSel) (new index : Nat) :
    (listOfOlds s self old = [] →
      replace_child check fuel s self old new index = some (s, some PyErr.valueError)) ∧
    (listOfOlds s self old ≠ [] → check s self new = false →
      replace_child check fuel s self old new index = some (s, some PyErr.typeError)) ∧
    (listOfOlds s self old ≠ [] → check s self new = true →
      (listOfOlds s self old).get? index = none →
      replace_child check fuel s self old new index = some (s, some PyErr.indexError)) ∧
    (∀ matched t d anc,
      (s self).children = t ++ matched :: d → matched ∉ t →
      (listOfOlds s self old).get? index = some matched →
      check s self new = true →
      IsPath s self (self :: anc) → matched ∉ self :: anc → new ≠ matched →
      anc.length + 1 ≤ fuel →
      ∃ s', replace_child check fuel s self old new index = some (s', none) ∧
        (s' self).children = t ++ new :: d ∧
        (s' matched).parent = none ∧
        (s' new).parent = some self) := by
  refine ⟨?_, ?_, ?_, ?_⟩
  · intro h
    simp [replace_child, h]
  · intro h1 h2
    have he : (listOfOlds s self old).isEmpty = false := by
      cases h0 : listOfOlds s self old with
      | nil => exact absurd h0 h1
      | cons _ _ => simp
    simp [replace_child, he, h2]
  · intro h1 h2 h3
    have he : (listOfOlds s self old).isEmpty = false := by
      cases h0 : listOfOlds s self old with
      | nil => exact absurd h0 h1
      | cons _ _ => simp
    have h3' : (listOfOlds s self old)[index]? = none := by
      simpa [List.get?_eq_getElem?] using h3
    simp [replace_child, he, h2, h3']
  · intro matched t d anc hch hnt hget hchk hpath hmnot hnm hf
    obtain ⟨s', h1, h2, h3, h4, -, -⟩ :=
      replace_child_aux check hch hnt hget hchk hpath hmnot hnm hf
    exact ⟨s', h1, h2, h3, h4⟩

/-- Witness for `C5_replace_child_spec` on a root with children `[1, 2, 3]`:
no match for node 9; a rejecting hook; occurrence index 5 past the single
match; and a successful replacement of node 2 by node 4. -/
theorem C5_replace_child_spec_witness :
    replace_child acceptAll 5 w5Store 0 (OldSel.byNode 9) 4 0 =
      some (w5Store, some PyErr.valueError) ∧
    replace_child rejectAll 5 w5Store 0 (OldSel.byNode 2) 4 0 =
      some (w5Store, some PyErr.typeError) ∧
    replace_child acceptAll 5 w5Store 0 (OldSel.byNode 2) 4 5 =
      some (w5Store, some PyErr.indexError) ∧
    ∃ s', replace_child acceptAll 5 w5Store 0 (OldSel.byNode 2) 4 0 = some (s', none) ∧
      (s' 0).children = [1] ++ 4 :: [3] ∧
      (s' 2).parent = none ∧
      (s' 4).parent = some 0 := by
  refine ⟨?_, ?_, ?_, ?_⟩
  · exact (C5_replace_child_spec acceptAll 5 w5Store 0 (OldSel.byNode 9) 4 0).1 (by decide)
  · exact (C5_replace_child_spec rejectAll 5 w5Store 0 (OldSel.byNode 2) 4 0).2.1
      (by decide) rfl
  · exact (C5_replace_child_spec acceptAll 5 w5Store 0 (OldSel.byNode 2) 4 5).2.2.1
      (by decide) rfl (by decide)
  · exact (C5_replace_child_spec acceptAll 5 w5Store 0 (OldSel.byNode 2) 4 0).2.2.2
      2 [1] [3] [] rfl (by decide) (by decide) rfl (IsPath.root 0 rfl)
      (by decide) (by decide) (by decide)

/-- C6 counterexample: a genuine leaf entry of a layer is NOT carried forward
when its `_is_leaf` flag is stale.  Grow `0 → 1 → 2`, remove node 2 from node
1 (which leaves node 1 childless with flag `False`): node 1 is a leaf entry of
layer 1, yet layer 2 is empty. -/
theorem C6_cex_stale_flag_leaf_dropped :
    (c6Store 1).children = [] ∧ (1 : Nat) ∈ get_layer c6Store 0 1 ∧
      (1 : Nat) ∉ get_layer c6Store 0 2 := by decide

/-- C6 (amended): `get_layer` satisfies the recurrence with "leaf" read from
the cached `_is_leaf` flag, not from actual childlessness: level 0 is
`[self]`, level 1 the children list, and each level ≥ 2 expands every
flagged-non-leaf entry of the previous layer to its children while carrying
flagged-leaf entries forward — hence an entry of any layer ≥ 1 whose flag is
set persists into every deeper layer. -/
theorem C6_get_layer_spec (s : Store) (self : Nat) :
    get_layer s self 0 = [self] ∧
    get_layer s self 1 = (s self).children ∧
    (∀ n, get_layer s self (n + 2) =
      ((get_layer s self (n + 1)).map (layerExpand s)).flatten) ∧
    (∀ c n, (s c).is_leaf = true → c ∈ get_layer s self (n + 1) →
      ∀ k, n + 1 ≤ k → c ∈ get_layer s self k) :=
  ⟨rfl, rfl, fun n => get_layer_flatten s self n,
    fun c n hflag hc k hk => get_layer_persist hflag hc k hk⟩

/-- Witness for `C6_get_layer_spec`: the depth-3 leaf 3 of the chain store
appears in layer 3 and persists into layer 5. -/
theorem C6_get_layer_spec_witness :
    (w4Store 3).is_leaf = true ∧ (3 : Nat) ∈ get_layer w4Store 0 5 :=
  ⟨rfl, (C6_get_layer_spec w4Store 0).2.2.2 3 2 rfl (by decide) 5 (by decide)⟩

/-- C8: `traverse` yields the `_raw_traverse` pre-order sequence of the
subtree (self first, then each child's full subtree, children in sequence
order — exactly what `raw_traverse` computes), and a second call on the
resulting heap returns the identical list, served from the `_traversed` cache
without recomputation: the heap is returned unchanged, and the first call
touched no node other than `n`. -/
theorem C8_traverse_spec {fuel : Nat} {s : Store} {n : Nat} {l : List Nat} {s' : Store}
    (hcache : (s n).traversed = none ∨ (s n).traversed = raw_traverse fuel s n)
    (h : traverse fuel s n = some (l, s')) :
    raw_traverse fuel s n = some l ∧
    traverse fuel s' n = some (l, s') ∧
    (∀ m, m ≠ n → s' m = s m) := by
  rcases hcase : (s n).traversed with _ | l0
  · unfold traverse at h
    rw [hcase] at h
    rcases hraw : raw_traverse fuel s n with _ | l1
    · rw [hraw] at h
      cases h
    · rw [hraw] at h
      cases h
      refine ⟨rfl, ?_, ?_⟩
      · unfold traverse
        rw [setTraversed_eq]
        simp
      · intro m hm
        rw [setTraversed_eq]
        simp [hm]
  · cases hcache with
    | inl h0 =>
      rw [hcase] at h0
      cases h0
    | inr h0 =>
      rw [hcase] at h0
      unfold traverse at h
      rw [hcase] at h
      cases h
      refine ⟨h0.symm, ?_, fun m _ => rfl⟩
      unfold traverse
      rw [hcase]

/-- Witness for `C8_traverse_spec`: traversing the chain store twice. -/
theorem C8_traverse_spec_witness :
    raw_traverse 10 w4Store 0 = some [0, 1, 2, 3] ∧
    traverse 10 (setTraversed w4Store 0 (some [0, 1, 2, 3])) 0 =
      some ([0, 1, 2, 3], setTraversed w4Store 0 (some [0, 1, 2, 3])) ∧
    (∀ m, m ≠ 0 → setTraversed w4Store 0 (some [0, 1, 2, 3]) m = w4Store m) :=
  C8_traverse_spec (Or.inl rfl) rfl

/-- C10: calling `get_tree_representation` with `space=0` does not raise and
renders exactly as the default width 3 — the `if space:` truthiness guard
treats 0 as falsy and skips the setter — even though assigning 0 to
`TreeRepresentation.space` directly raises `ValueError` and assigning a
non-int raises `TypeError`. -/
theorem C10_space_zero_guard (fuel : Nat) (s : Store) (root : Nat)
    (strFn : Nat → Str) (key : Option (Nat → Str)) :
    get_tree_representation fuel s root strFn key (some 0) =
      get_tree_representation fuel s root strFn key none ∧
    (∀ e, get_tree_representation fuel s root strFn key (some 0) ≠
      some (Except.error e)) ∧
    space_setter (SpaceVal.int 0) = Except.error PyErr.valueError ∧
    space_setter SpaceVal.nonInt = Except.error PyErr.typeError := by
  have hdef : get_tree_representation fuel s root strFn key (some 0) =
      (get_representation fuel s root
        (match key with | none => strFn | some f => f) (Int.toNat 3)).map Except.ok := rfl
  refine ⟨rfl, ?_, rfl, rfl⟩
  intro e hcontra
  rw [hdef] at hcontra
  obtain ⟨pr, -, hpr⟩ := Option.map_eq_some'.mp hcontra
  cases hpr

end VST
